import Mathlib

/-!
# Rarity pipeline of `main.go`

A shallow embedding of the token pipeline: `getToken`, `worker`, the aggregator
goroutine of `getTokens`, `computeRarityScore`, and the ranking / reporting steps
of `main`.

Modelling conventions.
* A Go `map[string]string` that is only ranged over (`Token.attrs`) is an association
  list; the order of the list is the order in which `range` visits the entries.  A nil
  map and an empty map are both `[]` (ranging over either does nothing).
* A Go map that is only indexed (`CountTokens`, `ValuesInCate`) is a partial function on
  keys: `m k = none` is the `ok == false` result of `v, ok := m[k]`.
* `map[string]interface{}` whose values are all `nil` is a finite set of keys.
* `*Token` is `Option Token`, `none` being the nil pointer.
* `uint64` is `Nat` with an explicit reduction modulo `2 ^ 64` at the increment.
* `float64` is `ℚ`: the arithmetic is exact.  A division by zero (`+Inf` in Go) is `0`
  in `ℚ`; it can only arise from a table that holds a zero count or an empty value set.
* The five workers are one `worker` run over the job ids in the order in which their
  results reach the aggregator: what a worker sends for a job depends on the job alone.
* A run-time panic (index out of range, nil dereference) is the result `none`.
-/

namespace GoNft

/-- Go `type Token struct { id int; attrs map[string]string }`. -/
structure Token where
  id : Nat
  attrs : List (String × String)
  deriving DecidableEq, Repr

/-- Go `type RarityScorecard struct { rarity float64; id int }`. -/
structure RarityScorecard where
  rarity : ℚ
  id : Nat
  deriving DecidableEq

/-- Go `type CollectionStats struct`; the embedded `*Collection` is never read. -/
@[ext]
structure CollectionStats where
  ValuesInCate : String → Option (Finset String)
  CountTokens : String → Option Nat

/-- Outcome of the HTTP round trip inside `getToken`.  `body attrs` is a body that was
read in full, `attrs` being what `json.Unmarshal` left in the map (the status code and
the decoding error are never inspected by the source). -/
inductive FetchResult where
  | getError
  | readError
  | body (attrs : List (String × String))
  deriving DecidableEq, Repr

/-- Go `getToken` (lines 44-63): both error branches return `&Token{}`, the zero token. -/
def getToken (tid : Nat) : FetchResult → Option Token
  | .getError => some { id := 0, attrs := [] }
  | .readError => some { id := 0, attrs := [] }
  | .body attrs => some { id := tid, attrs := attrs }

/-- Go `worker` (lines 65-74): for every job id, fetch and send when the pointer is not
nil.  The result is the list of values sent on `results`. -/
def worker (fetch : Nat → FetchResult) : List Nat → List (Option Token)
  | [] => []
  | id :: jobs =>
    match getToken id (fetch id) with
    | some t => some t :: worker fetch jobs
    | none => worker fetch jobs

/-- The modulus of `uint64`. -/
def uint64Mod : Nat := 2 ^ 64

/-- Body of the inner `range token.attrs` loop (lines 104-119) for one entry. -/
def recordAttr (s : CollectionStats) (p : String × String) : CollectionStats :=
  let cate := p.1
  let attr := p.2
  let val : Finset String :=
    match s.ValuesInCate cate with
    | some v => v
    | none => ∅
  let val := insert attr val
  let count : Nat :=
    match s.CountTokens attr with
    | none => 1
    | some c => (c + 1) % uint64Mod
  { ValuesInCate := Function.update s.ValuesInCate cate (some val)
    CountTokens := Function.update s.CountTokens attr (some count) }

/-- The inner loop `for cate, attr := range token.attrs` (lines 103-120). -/
def recordToken (s : CollectionStats) (t : Token) : CollectionStats :=
  t.attrs.foldl recordAttr s

/-- State owned by the aggregator goroutine: the `tokens` slice and the statistics. -/
structure AggState where
  tokens : List (Option Token)
  stats : CollectionStats

/-- The empty tables made at lines 84-88. -/
def emptyStats : CollectionStats :=
  { ValuesInCate := fun _ => none, CountTokens := fun _ => none }

/-- State at line 89: `make([]*Token, col.count)` is `count` nil pointers. -/
def initState (count : Nat) : AggState :=
  { tokens := List.replicate count none, stats := emptyStats }

/-- The aggregator goroutine (lines 91-123) run on the values received from `results`
until the channel is closed.  `none` as a result is the index-out-of-range panic of
`tokens[token.id] = token`. -/
def aggregator : AggState → List (Option Token) → Option AggState
  | st, [] => some st
  | st, none :: _ => some st
  | st, some t :: rest =>
    if t.id < st.tokens.length then
      aggregator { tokens := st.tokens.set t.id (some t), stats := recordToken st.stats t } rest
    else none

/-- Go `getTokens` (lines 76-145).  `order` is the schedule: the job ids in the order in
which their results reach the aggregator (a rearrangement of `0 .. count-1`). -/
def getTokens (count : Nat) (fetch : Nat → FetchResult) (order : List Nat) : Option AggState :=
  aggregator (initState count) (worker fetch order)

/-- One iteration of the loop of `computeRarityScore` (lines 150-154). -/
def addRarity (s : CollectionStats) (rarity : ℚ) (p : String × String) : ℚ :=
  match s.CountTokens p.2, s.ValuesInCate p.1 with
  | some countWithValue, some valuesInCategory =>
    rarity + 1 / ((countWithValue : ℚ) * (valuesInCategory.card : ℚ))
  | _, _ => rarity

/-- Go `computeRarityScore` (lines 147-160) on a non-nil token. -/
def computeRarityScore (s : CollectionStats) (token : Token) : RarityScorecard :=
  { id := token.id, rarity := token.attrs.foldl (addRarity s) 0 }

/-- The scoring loop of `main` (lines 172-177); a nil slot panics at `token.attrs`. -/
def scoreAll (s : CollectionStats) : List (Option Token) → Option (List RarityScorecard)
  | [] => some []
  | none :: _ => none
  | some t :: rest => (scoreAll s rest).map (fun cards => computeRarityScore s t :: cards)

/-- The `less` closure passed to `sort.SliceStable` (line 181). -/
def less (a b : RarityScorecard) : Bool := decide (a.rarity > b.rarity)

/-- Inner loop of the library insertion sort: the new element moves left while it is
`less` than its left neighbour.  The argument and the result are the sorted prefix in
reverse order. -/
def sinkLeft (x : RarityScorecard) : List RarityScorecard → List RarityScorecard
  | [] => [x]
  | p :: ps => if less x p then p :: sinkLeft x ps else x :: p :: ps

/-- The call `sort.SliceStable(rariryScorecards, less)` (line 180), as the stable
insertion sort of the library run over the whole slice. -/
def sliceStable (cards : List RarityScorecard) : List RarityScorecard :=
  (cards.foldl (fun rev x => sinkLeft x rev) []).reverse

/-- A printed line `Top <rank>: Token id <id>, Rarity <rarity>`. -/
structure Line where
  rank : Nat
  id : Nat
  rarity : ℚ
  deriving DecidableEq

/-- The reporting loop `for i := 0; i < 5; i++` (lines 184-186), started at index `i`
with `k` iterations left; indexing past the end panics. -/
def reportLoop (cards : List RarityScorecard) : Nat → Nat → Option (List Line)
  | _, 0 => some []
  | i, k + 1 =>
    match cards[i]? with
    | none => none
    | some c =>
      (reportLoop cards (i + 1) k).map (fun rest => { rank := i + 1, id := c.id, rarity := c.rarity } :: rest)

/-- The top-5 report of `main`. -/
def top5 (cards : List RarityScorecard) : Option (List Line) :=
  reportLoop cards 0 5

/-- `main` from line 169 on, for a collection of `count` tokens. -/
def mainReport (count : Nat) (fetch : Nat → FetchResult) (order : List Nat) : Option (List Line) :=
  match getTokens count fetch order with
  | none => none
  | some st =>
    match scoreAll st.stats st.tokens with
    | none => none
    | some cards => top5 (sliceStable cards)

/-- The token that `getToken` builds; the pointer it returns is never nil. -/
def builtToken (tid : Nat) : FetchResult → Token
  | .getError => { id := 0, attrs := [] }
  | .readError => { id := 0, attrs := [] }
  | .body attrs => { id := tid, attrs := attrs }

/-- The writes `tokens[token.id] = token` (line 102) for the delivered items, in order. -/
def storeAll (arr : List (Option Token)) (items : List Token) : List (Option Token) :=
  items.foldl (fun a t => a.set t.id (some t)) arr

/-- Every (category, value) pair of the delivered items, in the order the aggregator
visits them. -/
def allPairs (items : List Token) : List (String × String) :=
  (items.map (fun t => t.attrs)).flatten

/-- Number of (delivered item, category) pairs whose value is `v`. -/
def pairCount (items : List Token) (v : String) : Nat :=
  ((allPairs items).filter (fun p => p.2 = v)).length

/-- The values `v` such that some delivered item has `attrs[c] = v`. -/
def valuesOf (items : List Token) (c : String) : Finset String :=
  (((allPairs items).filter (fun p => p.1 = c)).map (fun p => p.2)).toFinset

/-- Contribution of one attribute pair to the rarity as the specification words it:
`1 / (CountTokens[value] * |ValuesInCate[category]|)`, and `0` when the value is not a
key of `CountTokens` or the category is not a key of `ValuesInCate`. -/
def pairTerm (s : CollectionStats) (p : String × String) : ℚ :=
  match s.CountTokens p.2, s.ValuesInCate p.1 with
  | some n, some vs => 1 / ((n : ℚ) * (vs.card : ℚ))
  | _, _ => 0

/-- Rarity as the specification words it: the sum of `pairTerm` over the attribute
pairs of the token. -/
def specRarity (s : CollectionStats) (token : Token) : ℚ :=
  (token.attrs.map (pairTerm s)).sum

/-- Items of the worked example: `{bg: red}`, `{bg: red}`, `{bg: blue}` with ids 0, 1, 2. -/
def exampleItems : List Token :=
  [{ id := 0, attrs := [("bg", "red")] }, { id := 1, attrs := [("bg", "red")] },
   { id := 2, attrs := [("bg", "blue")] }]

/-- One item carrying the same value under two categories: `{a: x, b: x}` with id 0. -/
def conflatedItem : Token :=
  { id := 0, attrs := [("a", "x"), ("b", "x")] }

/-- Scorecards of the worked example in index order: rarities `1/4`, `1/4`, `1/2` for
ids 0, 1, 2. -/
def exampleCards : List RarityScorecard :=
  [{ rarity := 1 / 4, id := 0 }, { rarity := 1 / 4, id := 1 }, { rarity := 1 / 2, id := 2 }]

/-- Fetch outcomes of a collection in which the request for index 1 fails in transport
and every other index returns `{bg: red}`. -/
def failingFetch : Nat → FetchResult
  | 1 => .getError
  | _ => .body [("bg", "red")]

/-- The lines that the report prints for the first five entries of a ranked list. -/
def firstFive (cards : List RarityScorecard) : List Line :=
  (cards.take 5).enum.map (fun ic => { rank := ic.1 + 1, id := ic.2.id, rarity := ic.2.rarity })

/-- Tables of the worked example: `CountTokens = {red: 2, blue: 1}`,
`ValuesInCate = {bg: {red, blue}}`. -/
def exampleStats : CollectionStats :=
  { ValuesInCate := fun c => if c = "bg" then some {"red", "blue"} else none
    CountTokens := fun v => if v = "red" then some 2 else if v = "blue" then some 1 else none }

/-! ## The scorer -/

theorem addRarity_eq (s : CollectionStats) (r : ℚ) (p : String × String) :
    addRarity s r p = r + pairTerm s p := by
  unfold addRarity pairTerm
  cases s.CountTokens p.2 <;> cases s.ValuesInCate p.1 <;> simp

theorem foldl_addRarity (s : CollectionStats) (ps : List (String × String)) :
    ∀ r : ℚ, ps.foldl (addRarity s) r = r + (ps.map (pairTerm s)).sum := by
  induction ps with
  | nil => intro r; simp
  | cons p ps ih =>
    intro r
    simp only [List.foldl_cons, List.map_cons, List.sum_cons, ih, addRarity_eq]
    ring

theorem pairTerm_nonneg (s : CollectionStats) (p : String × String) : 0 ≤ pairTerm s p := by
  unfold pairTerm
  cases s.CountTokens p.2 <;> cases s.ValuesInCate p.1 <;> simp
  positivity

/-- C1: the scorecard of `computeRarityScore` carries the token's id, and its rarity is the
sum over the token's attribute pairs of `1 / (CountTokens[value] * |ValuesInCate[category]|)`
with `0` for a pair that misses a table; on the tables `{red: 2, blue: 1}`,
`{bg: {red, blue}}` the token `{bg: red}` scores `1/4` and `{bg: blue}` scores `1/2`. -/
theorem C1_computeRarityScore_eq_spec :
    (∀ (s : CollectionStats) (token : Token),
      (computeRarityScore s token).id = token.id ∧
      (computeRarityScore s token).rarity = specRarity s token) ∧
    (computeRarityScore exampleStats { id := 0, attrs := [("bg", "red")] }).rarity = 1 / 4 ∧
    (computeRarityScore exampleStats { id := 2, attrs := [("bg", "blue")] }).rarity = 1 / 2 := by
  refine ⟨fun s token => ⟨rfl, ?_⟩, ?_, ?_⟩
  · show token.attrs.foldl (addRarity s) 0 = specRarity s token
    rw [foldl_addRarity, zero_add]
    rfl
  · have hc : ({"red", "blue"} : Finset String).card = 2 := by decide
    simp only [computeRarityScore, List.foldl_cons, List.foldl_nil, addRarity, exampleStats]
    simp only [if_true, hc]
    norm_num
  · have hc : ({"red", "blue"} : Finset String).card = 2 := by decide
    have hne : ("blue" = "red") = False := by simp
    simp only [computeRarityScore, List.foldl_cons, List.foldl_nil, addRarity, exampleStats]
    simp only [if_true, if_false, hne, hc]
    norm_num

/-- C9: the rarity returned by `computeRarityScore` is never negative, whatever the tables
(so in particular for tables built by the aggregator), and a token with an empty or nil
attribute mapping scores exactly `0`. -/
theorem C9_rarity_nonneg_and_empty_zero (s : CollectionStats) (token : Token) :
    0 ≤ (computeRarityScore s token).rarity ∧
    (computeRarityScore s { id := token.id, attrs := [] }).rarity = 0 := by
  refine ⟨?_, rfl⟩
  show 0 ≤ token.attrs.foldl (addRarity s) 0
  rw [foldl_addRarity, zero_add]
  apply List.sum_nonneg
  intro x hx
  obtain ⟨p, -, rfl⟩ := List.mem_map.1 hx
  exact pairTerm_nonneg s p

/-- The rarity does not depend on the order in which `range` visits the attributes. -/
theorem computeRarityScore_attrs_perm (s : CollectionStats) (id : Nat)
    (attrs attrs' : List (String × String)) (hp : attrs.Perm attrs') :
    computeRarityScore s { id := id, attrs := attrs } =
      computeRarityScore s { id := id, attrs := attrs' } := by
  simp only [computeRarityScore, foldl_addRarity, (hp.map (pairTerm s)).sum_eq]

/-! ## The aggregator -/

theorem recordAttr_comm (s : CollectionStats) (p q : String × String) :
    recordAttr (recordAttr s p) q = recordAttr (recordAttr s q) p := by
  apply CollectionStats.ext
  · funext c
    simp only [recordAttr, Function.update_apply]
    by_cases hpq : p.1 = q.1
    · have hqp : q.1 = p.1 := hpq.symm
      by_cases hc : c = q.1
      · simp [hc, hqp, Finset.Insert.comm p.2 q.2]
      · have hc2 : ¬ c = p.1 := fun h => hc (h.trans hpq)
        simp [hc, hc2]
    · have hqp : ¬ q.1 = p.1 := fun h => hpq h.symm
      by_cases hc : c = q.1
      · have hc2 : ¬ c = p.1 := fun h => hqp (hc.symm.trans h)
        simp [hc, hpq, hqp]
      · by_cases hc3 : c = p.1
        · simp [hc3, hpq, hqp]
        · simp [hc, hc3]
  · funext v
    simp only [recordAttr, Function.update_apply]
    by_cases hpq : p.2 = q.2
    · have hqp : q.2 = p.2 := hpq.symm
      by_cases hv : v = q.2
      · simp [hv, hqp]
      · have hv2 : ¬ v = p.2 := fun h => hv (h.trans hpq)
        simp [hv, hv2]
    · have hqp : ¬ q.2 = p.2 := fun h => hpq h.symm
      by_cases hv : v = q.2
      · simp [hv, hpq, hqp]
      · by_cases hv3 : v = p.2
        · simp [hv3, hpq, hqp]
        · simp [hv, hv3]

/-- The tables do not depend on the order in which `range` visits the attributes. -/
theorem recordToken_attrs_perm (s : CollectionStats) (id : Nat)
    (attrs attrs' : List (String × String)) (hp : attrs.Perm attrs') :
    recordToken s { id := id, attrs := attrs } = recordToken s { id := id, attrs := attrs' } :=
  hp.foldl_eq' (fun x _ y _ z => recordAttr_comm z x y) s

theorem getToken_eq (tid : Nat) (r : FetchResult) : getToken tid r = some (builtToken tid r) := by
  cases r <;> rfl

theorem worker_eq (fetch : Nat → FetchResult) (jobs : List Nat) :
    worker fetch jobs = (jobs.map (fun id => builtToken id (fetch id))).map some := by
  induction jobs with
  | nil => rfl
  | cons id jobs ih => simp [worker, getToken_eq, ih]

theorem length_storeAll (items : List Token) :
    ∀ arr : List (Option Token), (storeAll arr items).length = arr.length := by
  induction items with
  | nil => intro arr; rfl
  | cons t items ih =>
    intro arr
    show (storeAll (arr.set t.id (some t)) items).length = arr.length
    rw [ih, List.length_set]

/-- Closed form of the aggregator loop on a stream without nil pointers. -/
theorem aggregator_items (items : List Token) :
    ∀ st : AggState, aggregator st (items.map some) =
      if ∀ t ∈ items, t.id < st.tokens.length then
        some { tokens := storeAll st.tokens items, stats := items.foldl recordToken st.stats }
      else none := by
  induction items with
  | nil => intro st; simp [aggregator, storeAll]
  | cons t items ih =>
    intro st
    simp only [List.map_cons, aggregator]
    by_cases ht : t.id < st.tokens.length
    · simp only [ht, if_true, ih, List.length_set, List.mem_cons, forall_eq_or_imp, true_and]
      rfl
    · simp [ht]

theorem foldl_recordToken (items : List Token) (s : CollectionStats) :
    items.foldl recordToken s = (allPairs items).foldl recordAttr s := by
  unfold allPairs
  rw [List.foldl_flatten, List.foldl_map]
  rfl

theorem recordAttr_CountTokens (s : CollectionStats) (p : String × String) (v : String) :
    (recordAttr s p).CountTokens v =
      if v = p.2 then
        some (match s.CountTokens p.2 with
          | none => 1
          | some c => (c + 1) % uint64Mod)
      else s.CountTokens v := by
  simp only [recordAttr, Function.update_apply]

theorem recordAttr_ValuesInCate (s : CollectionStats) (p : String × String) (c : String) :
    (recordAttr s p).ValuesInCate c =
      if c = p.1 then
        some (insert p.2 (match s.ValuesInCate p.1 with
          | some v => v
          | none => ∅))
      else s.ValuesInCate c := by
  simp only [recordAttr, Function.update_apply]

/-- Closed form of `CountTokens` after the pairs `ps` were recorded into empty tables. -/
theorem CountTokens_foldl (ps : List (String × String)) (v : String) :
    (ps.foldl recordAttr emptyStats).CountTokens v =
      if (ps.filter (fun p => p.2 = v)).length = 0 then none
      else some ((ps.filter (fun p => p.2 = v)).length % uint64Mod) := by
  induction ps using List.reverseRecOn with
  | nil => simp [emptyStats]
  | append_singleton l p ih =>
    rw [List.foldl_append, List.foldl_cons, List.foldl_nil, recordAttr_CountTokens]
    by_cases hv : v = p.2
    · subst hv
      rw [ih]
      simp only [List.filter_append, List.length_append, List.filter_cons, List.filter_nil,
        decide_True, if_true, List.length_singleton]
      by_cases hk : (l.filter (fun q => q.2 = p.2)).length = 0
      · simp [hk, uint64Mod]
      · simp only [hk, if_false, Nat.succ_ne_zero]
        congr 1
        exact Nat.mod_add_mod _ _ _
    · have hv2 : ¬ p.2 = v := fun h => hv h.symm
      have hf : (l ++ [p]).filter (fun q => q.2 = v) = l.filter (fun q => q.2 = v) := by
        simp [List.filter_append, List.filter_cons, hv2]
      rw [hf, if_neg hv, ih]

/-- Closed form of `ValuesInCate` after the pairs `ps` were recorded into empty tables. -/
theorem ValuesInCate_foldl (ps : List (String × String)) (c : String) :
    (ps.foldl recordAttr emptyStats).ValuesInCate c =
      if ps.filter (fun p => p.1 = c) = [] then none
      else some (((ps.filter (fun p => p.1 = c)).map (fun p => p.2)).toFinset) := by
  induction ps using List.reverseRecOn with
  | nil => simp [emptyStats]
  | append_singleton l p ih =>
    rw [List.foldl_append, List.foldl_cons, List.foldl_nil, recordAttr_ValuesInCate]
    by_cases hc : c = p.1
    · subst hc
      rw [ih]
      by_cases hk : l.filter (fun q => q.1 = p.1) = []
      · simp [hk, List.filter_append, List.filter_cons]
      · simp only [hk, if_false, List.filter_append, List.filter_cons, decide_True, if_true,
          List.filter_nil, List.map_append, List.map_cons, List.map_nil, List.toFinset_append,
          List.toFinset_cons, List.toFinset_nil, List.append_eq_nil, false_and]
        congr 1
        ext x
        simp [or_comm]
    · have hc2 : ¬ p.1 = c := fun h => hc h.symm
      have hf : (l ++ [p]).filter (fun q => q.1 = c) = l.filter (fun q => q.1 = c) := by
        simp [List.filter_append, List.filter_cons, hc2]
      rw [hf, if_neg hc, ih]

theorem aggregator_init (count : Nat) (items : List Token) (hid : ∀ t ∈ items, t.id < count) :
    aggregator (initState count) (items.map some) =
      some { tokens := storeAll (List.replicate count none) items
             stats := (allPairs items).foldl recordAttr emptyStats } := by
  rw [aggregator_items, if_pos (by simpa [initState] using hid), foldl_recordToken]
  rfl

theorem mem_valuesOf (items : List Token) (c v : String) :
    v ∈ valuesOf items c ↔ ∃ t ∈ items, (c, v) ∈ t.attrs := by
  simp only [valuesOf, allPairs, List.mem_toFinset, List.mem_map, List.mem_filter,
    List.mem_flatten, decide_eq_true_eq]
  constructor
  · rintro ⟨⟨c', v'⟩, ⟨⟨l, ⟨t, ht, rfl⟩, hl⟩, hc⟩, hv⟩
    simp only at hc hv
    subst hc hv
    exact ⟨t, ht, hl⟩
  · rintro ⟨t, ht, hl⟩
    exact ⟨(c, v), ⟨⟨t.attrs, ⟨t, ht, rfl⟩, hl⟩, rfl⟩, rfl⟩

theorem valuesOf_eq_empty (items : List Token) (c : String) :
    valuesOf items c = ∅ ↔ (allPairs items).filter (fun p => p.1 = c) = [] := by
  simp [valuesOf, List.toFinset_eq_empty_iff]

theorem pairCount_le (items : List Token) (v : String) :
    pairCount items v ≤ (allPairs items).length :=
  List.length_filter_le _ _

theorem allPairs_perm {items items' : List Token} (hp : items.Perm items') :
    (allPairs items).Perm (allPairs items') :=
  (hp.map _).flatten

theorem stats_perm {ps ps' : List (String × String)} (hp : ps.Perm ps') :
    ps.foldl recordAttr emptyStats = ps'.foldl recordAttr emptyStats := by
  apply CollectionStats.ext
  · funext c
    rw [ValuesInCate_foldl, ValuesInCate_foldl]
    have hf := hp.filter (fun p => decide (p.1 = c))
    have h1 : (ps.filter (fun p => decide (p.1 = c)) = []) ↔
        (ps'.filter (fun p => decide (p.1 = c)) = []) := by
      rw [← List.length_eq_zero, ← List.length_eq_zero, hf.length_eq]
    have h2 := List.toFinset_eq_of_perm _ _ (hf.map (fun p => p.2))
    simp only [h1, h2]
  · funext v
    rw [CountTokens_foldl, CountTokens_foldl, (hp.filter (fun p => decide (p.2 = v))).length_eq]

theorem storeAll_perm {items items' : List Token} (hp : items.Perm items')
    (hn : (items.map Token.id).Nodup) (arr : List (Option Token)) :
    storeAll arr items = storeAll arr items' := by
  unfold storeAll
  apply hp.foldl_eq'
  intro x hx y hy z
  by_cases hxy : x = y
  · subst hxy; rfl
  · have hne : x.id ≠ y.id := by
      intro h
      exact hxy (List.inj_on_of_nodup_map hn hx hy h)
    exact List.set_comm _ _ _ hne

/-- C2: run from the empty tables on any finite sequence of delivered items (ids inside
the slice, fewer than `2 ^ 64` pairs per value so the `uint64` counter does not wrap), the
aggregator loop ends with `ValuesInCate[c]` exactly the set of values `v` such that some
item has `attrs[c] = v`, `c` being a key only when that set is not empty, and with
`CountTokens[v]` exactly the number of (item, category) pairs whose value is `v`, `v`
being a key only when that number is at least one. -/
theorem C2_aggregator_tables_eq_reference (count : Nat) (items : List Token)
    (hid : ∀ t ∈ items, t.id < count)
    (hcnt : ∀ v, pairCount items v < uint64Mod) :
    ∃ st, aggregator (initState count) (items.map some) = some st ∧
      (∀ c, st.stats.ValuesInCate c =
        if valuesOf items c = ∅ then none else some (valuesOf items c)) ∧
      (∀ c v, v ∈ valuesOf items c ↔ ∃ t ∈ items, (c, v) ∈ t.attrs) ∧
      (∀ v, st.stats.CountTokens v =
        if pairCount items v = 0 then none else some (pairCount items v)) := by
  refine ⟨_, aggregator_init count items hid, ?_, mem_valuesOf items, ?_⟩
  · intro c
    show ((allPairs items).foldl recordAttr emptyStats).ValuesInCate c = _
    rw [ValuesInCate_foldl]
    simp only [valuesOf_eq_empty]
    rfl
  · intro v
    show ((allPairs items).foldl recordAttr emptyStats).CountTokens v = _
    rw [CountTokens_foldl]
    show (if pairCount items v = 0 then none else some (pairCount items v % uint64Mod)) = _
    rw [Nat.mod_eq_of_lt (hcnt v)]

/-- Witness of C2 on the worked example: `{bg: red}`, `{bg: red}`, `{bg: blue}` give
`CountTokens = {red: 2, blue: 1}` and `ValuesInCate = {bg: {red, blue}}`. -/
theorem C2_aggregator_tables_witness :
    (∀ t ∈ exampleItems, t.id < 3) ∧ (∀ v, pairCount exampleItems v < uint64Mod) ∧
    (∃ st, aggregator (initState 3) (exampleItems.map some) = some st ∧
      (∀ c, st.stats.ValuesInCate c =
        if valuesOf exampleItems c = ∅ then none else some (valuesOf exampleItems c)) ∧
      (∀ c v, v ∈ valuesOf exampleItems c ↔ ∃ t ∈ exampleItems, (c, v) ∈ t.attrs) ∧
      (∀ v, st.stats.CountTokens v =
        if pairCount exampleItems v = 0 then none else some (pairCount exampleItems v))) ∧
    valuesOf exampleItems "bg" = {"red", "blue"} ∧
    pairCount exampleItems "red" = 2 ∧ pairCount exampleItems "blue" = 1 := by
  have hid : ∀ t ∈ exampleItems, t.id < 3 := by decide
  have hcnt : ∀ v, pairCount exampleItems v < uint64Mod := fun v =>
    lt_of_le_of_lt (pairCount_le exampleItems v) (by decide)
  exact ⟨hid, hcnt, C2_aggregator_tables_eq_reference 3 exampleItems hid hcnt,
    by decide, by decide, by decide⟩

/-- C5: the aggregator loop run from the empty state on a list of items and on any
permutation of it ends with identical `ValuesInCate` and `CountTokens` tables (and panics
on one exactly when it panics on the other); when the items have pairwise distinct ids
the whole final states, item arrays included, are identical. -/
theorem C5_aggregation_order_independent (count : Nat) (items items' : List Token)
    (hp : items.Perm items') :
    Option.map AggState.stats (aggregator (initState count) (items.map some)) =
      Option.map AggState.stats (aggregator (initState count) (items'.map some)) ∧
    ((items.map Token.id).Nodup →
      aggregator (initState count) (items.map some) =
        aggregator (initState count) (items'.map some)) := by
  have hmem : (∀ t ∈ items, t.id < (initState count).tokens.length) ↔
      (∀ t ∈ items', t.id < (initState count).tokens.length) := by
    constructor
    · intro h t ht; exact h t (hp.mem_iff.2 ht)
    · intro h t ht; exact h t (hp.mem_iff.1 ht)
  have hstats : items.foldl recordToken (initState count).stats =
      items'.foldl recordToken (initState count).stats := by
    rw [foldl_recordToken, foldl_recordToken]
    exact stats_perm (allPairs_perm hp)
  rw [aggregator_items, aggregator_items]
  by_cases h : ∀ t ∈ items, t.id < (initState count).tokens.length
  · rw [if_pos h, if_pos (hmem.1 h)]
    refine ⟨?_, fun hn => ?_⟩
    · simp only [Option.map_some', hstats]
    · rw [hstats, storeAll_perm hp hn]
  · rw [if_neg h, if_neg (fun h' => h (hmem.2 h'))]
    exact ⟨rfl, fun _ => rfl⟩

/-- Witness of C5: the worked example delivered in reverse order. -/
theorem C5_aggregation_order_witness :
    exampleItems.Perm exampleItems.reverse ∧ (exampleItems.map Token.id).Nodup ∧
    (aggregator (initState 3) (exampleItems.map some)).isSome = true ∧
    Option.map AggState.stats (aggregator (initState 3) (exampleItems.map some)) =
      Option.map AggState.stats (aggregator (initState 3) (exampleItems.reverse.map some)) ∧
    aggregator (initState 3) (exampleItems.map some) =
      aggregator (initState 3) (exampleItems.reverse.map some) := by
  have hp : exampleItems.Perm exampleItems.reverse := (List.reverse_perm exampleItems).symm
  have hn : (exampleItems.map Token.id).Nodup := by decide
  have h := C5_aggregation_order_independent 3 exampleItems exampleItems.reverse hp
  refine ⟨hp, hn, ?_, h.1, h.2 hn⟩
  rw [aggregator_init 3 exampleItems (by decide)]
  rfl

theorem length_le_of_nodup_lt (l : List Nat) (n : Nat) (hn : l.Nodup) (hl : ∀ x ∈ l, x < n) :
    l.length ≤ n := by
  have hsub : l.toFinset ⊆ Finset.range n := by
    intro x hx
    exact Finset.mem_range.2 (hl x (List.mem_toFinset.1 hx))
  have hcard := Finset.card_le_card hsub
  rwa [List.toFinset_card_of_nodup hn, Finset.card_range] at hcard

theorem allPairs_cons (t : Token) (items : List Token) :
    allPairs (t :: items) = t.attrs ++ allPairs items := rfl

theorem length_filter_allPairs_le (q : String × String → Bool) (items : List Token)
    (h : ∀ t ∈ items, (t.attrs.filter q).length ≤ 1) :
    ((allPairs items).filter q).length ≤ items.length := by
  induction items with
  | nil => simp [allPairs]
  | cons t items ih =>
    rw [allPairs_cons, List.filter_append, List.length_append, List.length_cons]
    have h1 := h t (List.mem_cons_self _ _)
    have h2 := ih (fun u hu => h u (List.mem_cons_of_mem _ hu))
    omega

theorem length_filter_key_le_one (attrs : List (String × String)) (c : String)
    (hk : (attrs.map Prod.fst).Nodup) :
    (attrs.filter (fun p => decide (p.1 = c))).length ≤ 1 := by
  induction attrs with
  | nil => simp
  | cons p attrs ih =>
    rw [List.map_cons, List.nodup_cons] at hk
    by_cases hp : p.1 = c
    · have hnone : attrs.filter (fun q => decide (q.1 = c)) = [] := by
        rw [List.filter_eq_nil_iff]
        intro q hq hqc
        apply hk.1
        rw [hp, ← of_decide_eq_true hqc]
        exact List.mem_map_of_mem Prod.fst hq
      simp [List.filter_cons, hp, hnone]
    · simpa [List.filter_cons, hp] using ih hk.2

/-- Counterexample to C6 as stated: a collection of one item `{a: x, b: x}` ends with
`CountTokens[x] = 2`, which exceeds `count = 1`. -/
theorem C6_counterexample :
    ([conflatedItem].map Token.id).Nodup ∧ (∀ t ∈ [conflatedItem], t.id < 1) ∧
    (∀ t ∈ [conflatedItem], (t.attrs.map Prod.fst).Nodup) ∧
    ∃ st, aggregator (initState 1) ([conflatedItem].map some) = some st ∧
      ∃ k, st.stats.CountTokens "x" = some k ∧ ¬ (k ≤ 1) := by
  refine ⟨by decide, by decide, by decide, _, aggregator_init 1 [conflatedItem] (by decide), 2, ?_,
    by decide⟩
  show ((allPairs [conflatedItem]).foldl recordAttr emptyStats).CountTokens "x" = some 2
  rw [CountTokens_foldl]
  decide

/-- C6 as amended: for a collection of `count` items with pairwise distinct ids in
`0 .. count-1` (attribute maps having distinct keys), aggregation succeeds, every category
that is a key of `ValuesInCate` has at most `count` values, and every value `v` that is a
key of `CountTokens` satisfies `CountTokens[v] <= ` the number of (item, category) pairs
carrying `v`, hence `CountTokens[v] <= count` whenever no item carries `v` under more than
one category. -/
theorem C6_frequency_bounds (count : Nat) (items : List Token)
    (hn : (items.map Token.id).Nodup) (hid : ∀ t ∈ items, t.id < count)
    (hk : ∀ t ∈ items, (t.attrs.map Prod.fst).Nodup) :
    ∃ st, aggregator (initState count) (items.map some) = some st ∧
      (∀ c S, st.stats.ValuesInCate c = some S → S.card ≤ count) ∧
      (∀ v k, st.stats.CountTokens v = some k →
        k ≤ pairCount items v ∧
        ((∀ t ∈ items, (t.attrs.filter (fun p => decide (p.2 = v))).length ≤ 1) → k ≤ count)) := by
  have hlen : items.length ≤ count := by
    have := length_le_of_nodup_lt (items.map Token.id) count hn (by simpa using hid)
    simpa using this
  refine ⟨_, aggregator_init count items hid, ?_, ?_⟩
  · intro c S hS
    change ((allPairs items).foldl recordAttr emptyStats).ValuesInCate c = some S at hS
    rw [ValuesInCate_foldl] at hS
    split at hS
    · cases hS
    · cases hS
      calc _ ≤ (((allPairs items).filter (fun p => decide (p.1 = c))).map (fun p => p.2)).length :=
            List.toFinset_card_le _
        _ = ((allPairs items).filter (fun p => decide (p.1 = c))).length := List.length_map _ _
        _ ≤ items.length :=
            length_filter_allPairs_le _ items
              (fun t ht => length_filter_key_le_one t.attrs c (hk t ht))
        _ ≤ count := hlen
  · intro v k hk'
    change ((allPairs items).foldl recordAttr emptyStats).CountTokens v = some k at hk'
    rw [CountTokens_foldl] at hk'
    split at hk'
    · cases hk'
    · cases hk'
      have hmod : pairCount items v % uint64Mod ≤ pairCount items v := Nat.mod_le _ _
      refine ⟨hmod, fun h1 => ?_⟩
      exact le_trans hmod (le_trans (length_filter_allPairs_le _ items h1) hlen)

/-- Witness of C6 as amended, on the worked example with `count = 3`. -/
theorem C6_frequency_bounds_witness :
    (exampleItems.map Token.id).Nodup ∧ (∀ t ∈ exampleItems, t.id < 3) ∧
    (∀ t ∈ exampleItems, (t.attrs.map Prod.fst).Nodup) ∧
    ∃ st, aggregator (initState 3) (exampleItems.map some) = some st ∧
      (∀ c S, st.stats.ValuesInCate c = some S → S.card ≤ 3) ∧
      (∀ v k, st.stats.CountTokens v = some k →
        k ≤ pairCount exampleItems v ∧
        ((∀ t ∈ exampleItems, (t.attrs.filter (fun p => decide (p.2 = v))).length ≤ 1) →
          k ≤ 3)) :=
  ⟨by decide, by decide, by decide,
    C6_frequency_bounds 3 exampleItems (by decide) (by decide) (by decide)⟩

/-! ## Ranking -/

theorem sinkLeft_perm (x : RarityScorecard) (l : List RarityScorecard) :
    (sinkLeft x l).Perm (x :: l) := by
  induction l with
  | nil => exact List.Perm.refl _
  | cons p ps ih =>
    unfold sinkLeft
    split
    · exact (List.Perm.cons p ih).trans (List.Perm.swap x p ps)
    · exact List.Perm.refl _

theorem sinkLeft_sorted (x : RarityScorecard) (l : List RarityScorecard)
    (hl : l.Pairwise (fun a b => a.rarity ≤ b.rarity)) :
    (sinkLeft x l).Pairwise (fun a b => a.rarity ≤ b.rarity) := by
  induction l with
  | nil => simp [sinkLeft]
  | cons p ps ih =>
    rw [List.pairwise_cons] at hl
    unfold sinkLeft
    split
    · rename_i hlt
      have hlt2 : p.rarity < x.rarity := by simpa [less] using hlt
      rw [List.pairwise_cons]
      refine ⟨fun y hy => ?_, ih hl.2⟩
      rcases List.mem_cons.1 ((sinkLeft_perm x ps).mem_iff.1 hy) with rfl | hy2
      · exact le_of_lt hlt2
      · exact hl.1 y hy2
    · rename_i hnlt
      have hle : x.rarity ≤ p.rarity := by simpa [less] using hnlt
      rw [List.pairwise_cons]
      refine ⟨fun y hy => ?_, List.pairwise_cons.2 hl⟩
      rcases List.mem_cons.1 hy with rfl | hy2
      · exact hle
      · exact le_trans hle (hl.1 y hy2)

theorem sinkLeft_filter (r : ℚ) (x : RarityScorecard) (l : List RarityScorecard) :
    (sinkLeft x l).filter (fun c => decide (c.rarity = r)) =
      (x :: l).filter (fun c => decide (c.rarity = r)) := by
  induction l with
  | nil => rfl
  | cons p ps ih =>
    unfold sinkLeft
    split
    · rename_i hlt
      have hlt2 : p.rarity < x.rarity := by simpa [less] using hlt
      rw [List.filter_cons, ih]
      by_cases hx : x.rarity = r
      · have hp : ¬ p.rarity = r := fun h => by rw [h, hx] at hlt2; exact lt_irrefl _ hlt2
        simp [List.filter_cons, hx, hp]
      · simp [List.filter_cons, hx]
    · rfl

/-- The sorted prefix kept (in reverse) by the insertion sort, as a rearrangement,
ordering and stability statement. -/
theorem insertion_invariant (cards : List RarityScorecard) :
    (cards.foldl (fun rev x => sinkLeft x rev) []).Perm cards ∧
    (cards.foldl (fun rev x => sinkLeft x rev) []).Pairwise (fun a b => a.rarity ≤ b.rarity) ∧
    ∀ r : ℚ, (cards.foldl (fun rev x => sinkLeft x rev) []).filter (fun c => decide (c.rarity = r)) =
      (cards.filter (fun c => decide (c.rarity = r))).reverse := by
  induction cards using List.reverseRecOn with
  | nil => simp
  | append_singleton l x ih =>
    obtain ⟨hperm, hsorted, hfilter⟩ := ih
    rw [List.foldl_append, List.foldl_cons, List.foldl_nil]
    refine ⟨?_, sinkLeft_sorted x _ hsorted, fun r => ?_⟩
    · exact (sinkLeft_perm x _).trans ((List.Perm.cons x hperm).trans
        (List.perm_append_singleton x l).symm)
    · rw [sinkLeft_filter, List.filter_cons, hfilter, List.filter_append, List.reverse_append]
      by_cases hx : x.rarity = r <;> simp [List.filter_cons, hx]

/-- C7: the list left by the `sort.SliceStable` call of `main` is a permutation of the
scorecards, is ordered by non-increasing rarity, and keeps scorecards of equal rarity in
their order before sorting; so for scorecards built in index order ties are ordered by
ascending token id. -/
theorem C7_sliceStable_stable_descending (cards : List RarityScorecard) :
    (sliceStable cards).Perm cards ∧
    (sliceStable cards).Pairwise (fun a b => a.rarity ≥ b.rarity) ∧
    (∀ r : ℚ, (sliceStable cards).filter (fun c => decide (c.rarity = r)) =
      cards.filter (fun c => decide (c.rarity = r))) ∧
    (cards.Pairwise (fun a b => a.id < b.id) →
      ∀ r : ℚ, ((sliceStable cards).filter (fun c => decide (c.rarity = r))).Pairwise
        (fun a b => a.id < b.id)) := by
  obtain ⟨hperm, hsorted, hfilter⟩ := insertion_invariant cards
  have hstable : ∀ r : ℚ, (sliceStable cards).filter (fun c => decide (c.rarity = r)) =
      cards.filter (fun c => decide (c.rarity = r)) := by
    intro r
    unfold sliceStable
    rw [List.filter_reverse, hfilter, List.reverse_reverse]
  refine ⟨(List.reverse_perm _).trans hperm, ?_, hstable, fun hid r => ?_⟩
  · unfold sliceStable
    rw [List.pairwise_reverse]
    exact hsorted.imp (fun h => h)
  · rw [hstable]
    exact hid.filter _

/-- Witness of C7: rarities `[1/4, 1/4, 1/2]` for ids `[0, 1, 2]` rank as ids `[2, 0, 1]`. -/
theorem C7_sliceStable_witness :
    exampleCards.Pairwise (fun a b => a.id < b.id) ∧
    (sliceStable exampleCards).map RarityScorecard.id = [2, 0, 1] ∧
    ∀ r : ℚ, ((sliceStable exampleCards).filter (fun c => decide (c.rarity = r))).Pairwise
      (fun a b => a.id < b.id) := by
  have hid : exampleCards.Pairwise (fun a b => a.id < b.id) := by decide
  refine ⟨hid, ?_, (C7_sliceStable_stable_descending exampleCards).2.2.2 hid⟩
  have h : (4 : ℚ)⁻¹ < 2⁻¹ := by norm_num
  simp [sliceStable, exampleCards, sinkLeft, less, h]

/-! ## Failed fetches -/

theorem recordToken_empty (s : CollectionStats) (t : Token) (he : t.attrs = []) :
    recordToken s t = s := by
  unfold recordToken
  rw [he]
  rfl

theorem aggregator_stats_insert (st : AggState) (xs ys : List Token) (t : Token)
    (ht : t.id < st.tokens.length) (he : t.attrs = []) :
    Option.map AggState.stats (aggregator st ((xs ++ t :: ys).map some)) =
      Option.map AggState.stats (aggregator st ((xs ++ ys).map some)) := by
  rw [aggregator_items, aggregator_items]
  have hcond : (∀ u ∈ xs ++ t :: ys, u.id < st.tokens.length) ↔
      (∀ u ∈ xs ++ ys, u.id < st.tokens.length) := by
    constructor
    · intro h u hu
      rcases List.mem_append.1 hu with h1 | h1
      · exact h u (List.mem_append.2 (Or.inl h1))
      · exact h u (List.mem_append.2 (Or.inr (List.mem_cons_of_mem _ h1)))
    · intro h u hu
      rcases List.mem_append.1 hu with h1 | h1
      · exact h u (List.mem_append.2 (Or.inl h1))
      · rcases List.mem_cons.1 h1 with rfl | h2
        · exact ht
        · exact h u (List.mem_append.2 (Or.inr h2))
  by_cases h : ∀ u ∈ xs ++ ys, u.id < st.tokens.length
  · rw [if_pos h, if_pos (hcond.2 h)]
    simp only [Option.map_some', List.foldl_append, List.foldl_cons, recordToken_empty _ t he]
  · rw [if_neg h, if_neg (fun h' => h (hcond.1 h'))]

theorem getElem?_storeAll_of_ne (items : List Token) (i : Nat) (h : ∀ t ∈ items, t.id ≠ i) :
    ∀ arr : List (Option Token), (storeAll arr items)[i]? = arr[i]? := by
  induction items with
  | nil => intro arr; rfl
  | cons t items ih =>
    intro arr
    show (storeAll (arr.set t.id (some t)) items)[i]? = arr[i]?
    rw [ih (fun u hu => h u (List.mem_cons_of_mem _ hu)),
      List.getElem?_set_ne (h t (List.mem_cons_self _ _))]

theorem scoreAll_nil_slot (s : CollectionStats) (tokens : List (Option Token))
    (h : none ∈ tokens) : scoreAll s tokens = none := by
  induction tokens with
  | nil => cases h
  | cons t tokens ih =>
    cases t with
    | none => rfl
    | some t =>
      have h2 : none ∈ tokens := by
        rcases List.mem_cons.1 h with h1 | h1
        · cases h1
        · exact h1
      simp [scoreAll, ih h2]

/-- Whatever the size of the collection and the delivery order, a fetch that fails in
transport or in reading the body at an index other than 0 leaves the slot of that index
nil in the array returned by `getTokens`, and the scoring loop of `main` then fails. -/
theorem failed_fetch_slot_nil (count : Nat) (fetch : Nat → FetchResult) (order : List Nat)
    (i : Nat) (hi : 0 < i) (hic : i < count) (hord : ∀ j ∈ order, j < count)
    (hfail : fetch i = .getError ∨ fetch i = .readError) :
    ∃ st, getTokens count fetch order = some st ∧ st.tokens.length = count ∧
      st.tokens[i]? = some none ∧ mainReport count fetch order = none := by
  have hpos : 0 < count := Nat.lt_of_le_of_lt (Nat.zero_le i) hic
  have hid : ∀ t ∈ order.map (fun id => builtToken id (fetch id)), t.id < count := by
    intro t ht
    obtain ⟨j, hj, rfl⟩ := List.mem_map.1 ht
    cases hf : fetch j with
    | getError => exact hpos
    | readError => exact hpos
    | body attrs => exact hord j hj
  have hne : ∀ t ∈ order.map (fun id => builtToken id (fetch id)), t.id ≠ i := by
    intro t ht
    obtain ⟨j, hj, rfl⟩ := List.mem_map.1 ht
    cases hf : fetch j with
    | getError => exact fun h => absurd h.symm (Nat.ne_of_gt hi)
    | readError => exact fun h => absurd h.symm (Nat.ne_of_gt hi)
    | body attrs =>
      intro h
      have hji : j = i := h
      rw [hji] at hf
      rcases hfail with h1 | h1 <;> rw [h1] at hf <;> cases hf
  have hrun : getTokens count fetch order =
      some { tokens := storeAll (List.replicate count none)
               (order.map (fun id => builtToken id (fetch id)))
             stats := (allPairs (order.map (fun id => builtToken id (fetch id)))).foldl
               recordAttr emptyStats } := by
    unfold getTokens
    rw [worker_eq]
    exact aggregator_init count _ hid
  have hslot : (storeAll (List.replicate count none)
      (order.map (fun id => builtToken id (fetch id))))[i]? = some none := by
    rw [getElem?_storeAll_of_ne _ i hne, List.getElem?_replicate_of_lt hic]
  refine ⟨_, hrun, ?_, hslot, ?_⟩
  · show (storeAll _ _).length = count
    rw [length_storeAll, List.length_replicate]
  · unfold mainReport
    rw [hrun]
    show (match scoreAll _ (storeAll _ _) with
      | none => none
      | some cards => top5 (sliceStable cards)) = none
    rw [scoreAll_nil_slot _ _ (List.getElem?_mem hslot)]

/-- C3 on the code: in a collection of two items whose second fetch fails in transport,
`getTokens` returns an array of length two whose slot 1 is nil under either delivery
order (the zero token of the failed fetch is stored in slot 0 instead) and the scoring
loop of `main` then fails on the nil slot; the same holds for the collection of 100
tokens that `main` is built for. -/
theorem C3_failed_fetch_leaves_nil_slot :
    Option.map AggState.tokens (getTokens 2 failingFetch [0, 1]) =
      some [some { id := 0, attrs := [] }, none] ∧
    Option.map AggState.tokens (getTokens 2 failingFetch [1, 0]) =
      some [some { id := 0, attrs := [("bg", "red")] }, none] ∧
    (getTokens 2 failingFetch [0, 1]).bind (fun st => scoreAll st.stats st.tokens) = none ∧
    (getTokens 2 failingFetch [1, 0]).bind (fun st => scoreAll st.stats st.tokens) = none ∧
    (∃ st, getTokens 100 failingFetch (List.range 100) = some st ∧ st.tokens.length = 100 ∧
      st.tokens[1]? = some none ∧ mainReport 100 failingFetch (List.range 100) = none) := by
  refine ⟨rfl, rfl, rfl, rfl, ?_⟩
  exact failed_fetch_slot_nil 100 failingFetch (List.range 100) 1 (by decide) (by decide)
    (fun j hj => List.mem_range.1 hj) (Or.inl rfl)

/-- Counterexample to C4 as stated: for an index whose fetch fails in transport the
worker does send a value on `results`, the zero token; and for a body from which nothing
decodes it sends a token with that index and no attributes. -/
theorem C4_counterexample :
    worker failingFetch [1] = [some { id := 0, attrs := [] }] ∧
    worker failingFetch [1] ≠ [] ∧
    worker (fun _ => FetchResult.body []) [1] = [some { id := 1, attrs := [] }] := by
  refine ⟨rfl, ?_, rfl⟩
  intro h
  cases h

/-- C4 as amended: for every dispatched index the worker sends exactly one item, whatever
the outcome of the fetch; when the fetch failed in transport, in reading the body, or
left nothing decoded, that item has no attributes and both frequency tables are exactly
what they are when that index is not dispatched at all. -/
theorem C4_failed_fetch_emits_empty_item (fetch : Nat → FetchResult) (count i : Nat)
    (pre post : List Nat) (hi : i < count)
    (hfail : fetch i = .getError ∨ fetch i = .readError ∨ fetch i = .body []) :
    (∀ j, ∃ t, worker fetch [j] = [some t]) ∧
    (∃ t, worker fetch [i] = [some t] ∧ t.attrs = []) ∧
    Option.map AggState.stats (getTokens count fetch (pre ++ i :: post)) =
      Option.map AggState.stats (getTokens count fetch (pre ++ post)) := by
  have he : (builtToken i (fetch i)).attrs = [] := by
    rcases hfail with h | h | h <;> rw [h] <;> rfl
  have hlt : (builtToken i (fetch i)).id < (initState count).tokens.length := by
    have hlen : (initState count).tokens.length = count := by simp [initState]
    rw [hlen]
    rcases hfail with h | h | h <;> rw [h]
    · exact Nat.lt_of_le_of_lt (Nat.zero_le i) hi
    · exact Nat.lt_of_le_of_lt (Nat.zero_le i) hi
    · exact hi
  refine ⟨fun j => ⟨builtToken j (fetch j), ?_⟩, ⟨builtToken i (fetch i), ?_, he⟩, ?_⟩
  · simp [worker_eq]
  · simp [worker_eq]
  · unfold getTokens
    rw [worker_eq, worker_eq]
    have h1 : (pre ++ i :: post).map (fun id => builtToken id (fetch id)) =
        pre.map (fun id => builtToken id (fetch id)) ++
          builtToken i (fetch i) :: post.map (fun id => builtToken id (fetch id)) := by
      simp
    have h2 : (pre ++ post).map (fun id => builtToken id (fetch id)) =
        pre.map (fun id => builtToken id (fetch id)) ++
          post.map (fun id => builtToken id (fetch id)) := by
      simp
    rw [h1, h2]
    exact aggregator_stats_insert _ _ _ _ hlt he

/-- Witness of C4 as amended: the two-item collection whose second fetch fails. -/
theorem C4_failed_fetch_witness :
    (1 < 2) ∧
    (failingFetch 1 = .getError ∨ failingFetch 1 = .readError ∨ failingFetch 1 = .body []) ∧
    (∀ j, ∃ t, worker failingFetch [j] = [some t]) ∧
    (∃ t, worker failingFetch [1] = [some t] ∧ t.attrs = []) ∧
    Option.map AggState.stats (getTokens 2 failingFetch ([0] ++ 1 :: [])) =
      Option.map AggState.stats (getTokens 2 failingFetch ([0] ++ [])) ∧
    (getTokens 2 failingFetch ([0] ++ [])).isSome = true := by
  have h := C4_failed_fetch_emits_empty_item failingFetch 2 1 [0] [] (by decide) (Or.inl rfl)
  exact ⟨by decide, Or.inl rfl, h.1, h.2.1, h.2.2, rfl⟩

/-! ## The report -/

theorem top5_eq (cards : List RarityScorecard) :
    top5 cards = if 5 ≤ cards.length then some (firstFive cards) else none := by
  rcases cards with _ | ⟨a, _ | ⟨b, _ | ⟨c, _ | ⟨d, _ | ⟨e, rest⟩⟩⟩⟩⟩ <;>
    simp [top5, reportLoop, firstFive, List.enum, List.enumFrom]

theorem length_sliceStable (cards : List RarityScorecard) :
    (sliceStable cards).length = cards.length :=
  (insertion_invariant cards).1.length_eq ▸ List.length_reverse _

theorem firstFive_map (cards : List RarityScorecard) :
    (firstFive cards).map (fun l => (l.id, l.rarity)) =
      (cards.take 5).map (fun c => (c.id, c.rarity)) := by
  rcases cards with _ | ⟨a, _ | ⟨b, _ | ⟨c, _ | ⟨d, _ | ⟨e, rest⟩⟩⟩⟩⟩ <;>
    simp [firstFive, List.enum, List.enumFrom]

/-- Counterexample to C8 as stated: for a collection of two scorecards the reporting
loop of `main` fails at index 2 instead of returning the two available entries. -/
theorem C8_counterexample :
    [({ rarity := 1 / 2, id := 1 } : RarityScorecard), { rarity := 1 / 4, id := 0 }].length = 2 ∧
    top5 (sliceStable [{ rarity := 1 / 2, id := 1 }, { rarity := 1 / 4, id := 0 }]) = none := by
  refine ⟨rfl, ?_⟩
  rw [top5_eq, if_neg]
  rw [length_sliceStable]
  decide

/-- C8 as amended: the top-5 report of `main` succeeds exactly when the collection has
at least five scorecards, and then returns the first five entries of the ranked list with
ranks 1 to 5; with fewer than five scorecards it fails (index out of range) and returns
nothing. -/
theorem C8_top5_needs_five (cards : List RarityScorecard) :
    top5 (sliceStable cards) =
      (if 5 ≤ cards.length then some (firstFive (sliceStable cards)) else none) ∧
    (firstFive (sliceStable cards)).map (fun l => (l.id, l.rarity)) =
      ((sliceStable cards).take 5).map (fun c => (c.id, c.rarity)) := by
  refine ⟨?_, ?_⟩
  · rw [top5_eq, length_sliceStable]
  · exact firstFive_map _

end GoNft
